import Mathlib

/-!
Shallow embedding of the dense matrix library in src/src/lib.rs.

A `Matrix T` holds a declared shape `rows × cols` and a flat row-major
backing list `data`.  Rust operations that can panic (vector indexing out
of bounds, `assert_eq!` failure) are embedded as `Option`-valued
functions returning `none` on panic.  Loops that push into a growing
vector are embedded with the explicit loop combinators `pushLoop`,
`accLoop` and `randLoop` below, so that each Lean definition mirrors the
corresponding Rust loop body.
-/

namespace Rustices

/-- The struct `Matrix<T> { rows, cols, data }`. -/
structure Matrix (T : Type) where
  rows : Nat
  cols : Nat
  data : List T
  deriving DecidableEq, Repr

/-- Embeds `let mut acc = vec![]; for i in 0..n { acc.push(f(i)?) }`:
each iteration may panic (`none`), otherwise its value is appended. -/
def pushLoop (n : Nat) (f : Nat → Option α) : Option (List α) :=
  match n with
  | 0 => some []
  | Nat.succ m =>
    match pushLoop m f, f m with
    | some acc, some x => some (acc ++ [x])
    | _, _ => none

/-- Embeds `let mut total = init; for k in 0..n { total += f(k)? }`. -/
def accLoop [Add T] (n : Nat) (f : Nat → Option T) (init : T) : Option T :=
  match n with
  | 0 => some init
  | Nat.succ m =>
    match accLoop m f init, f m with
    | some t, some x => some (t + x)
    | _, _ => none

/-- `Matrix::from(data: Vec<Vec<T>>)`: rows from the outer length, cols
from `data[0].len()` (a panic — `none` — when the outer vector is
empty), data by flattening.  No rectangularity check is performed. -/
def Matrix.fromRows (data : List (List T)) : Option (Matrix T) :=
  match data with
  | [] => none
  | first :: _ =>
    some { rows := data.length, cols := first.length, data := data.flatten }

/-- `Matrix::new(rows, cols, value)`: the double push loop filling every
cell with a clone of `value`. -/
def Matrix.new (rows cols : Nat) (value : T) : Matrix T :=
  { rows := rows, cols := cols
    data := (List.range rows).flatMap fun _ => (List.range cols).map fun _ => value }

/-- `Matrix::get(row, col)`: `&self.data[row * self.cols + col]`; Rust
vector indexing panics when the flat index is out of range. -/
def Matrix.get (m : Matrix T) (row col : Nat) : Option T :=
  m.data.get? (row * m.cols + col)

/-- `Matrix::get_row(row)`: the slice
`self.data[row * cols .. (row + 1) * cols].to_vec()`; slicing panics
when the upper end exceeds the data length. -/
def Matrix.get_row (m : Matrix T) (row : Nat) : Option (List T) :=
  if (row + 1) * m.cols ≤ m.data.length then
    some ((m.data.take ((row + 1) * m.cols)).drop (row * m.cols))
  else none

/-- `Matrix::get_column(column)`: pushes `self.get(i, column)` for each
`i in 0..rows`. -/
def Matrix.get_column (m : Matrix T) (column : Nat) : Option (List T) :=
  pushLoop m.rows fun i => m.get i column

/-- `Matrix::set(row, col, value)`: `self.data[row * cols + col] = value`,
panicking when the flat index is out of range. -/
def Matrix.set (m : Matrix T) (row col : Nat) (value : T) : Option (Matrix T) :=
  if row * m.cols + col < m.data.length then
    some { m with data := m.data.set (row * m.cols + col) value }
  else none

/-- The counting generation loop of `Matrix::new_random`: on each
iteration one random value is drawn (`next` applied to the running call
count) and pushed; returns the data and the number of calls made. -/
def randLoop (next : Nat → Int) : Nat → List Int × Nat
  | 0 => ([], 0)
  | Nat.succ m =>
    let acc := randLoop next m
    (acc.1 ++ [next acc.2], acc.2 + 1)

/-- `Matrix::new_random(rows, cols, min, max)`: fills `rows * cols`
values from the random source `rng` (modelling `rng.gen_range(min..max)`
at each call index), then pushes the extra literal `1` exactly as the
source does.  Also returns the number of calls made to the source. -/
def Matrix.new_random (rows cols : Nat) (min max : Int)
    (rng : Int → Int → Nat → Int) : Matrix Int × Nat :=
  let acc := randLoop (rng min max) (rows * cols)
  ({ rows := rows, cols := cols, data := acc.1 ++ [1] }, acc.2)

/-- `PartialEq for Matrix<T>`: `self.data == other.data` — shape is
deliberately not compared. -/
def Matrix.meq [DecidableEq T] (a b : Matrix T) : Bool :=
  decide (a.data = b.data)

/-- `Mul<Matrix<T>> for Matrix<T>`: `assert_eq!(self.rows, rhs.cols)`
then the triple accumulation loop, pushing one total per output cell;
the output carries shape `self.rows × rhs.cols`.  The inner products go
through `get`, so a flat index past the end of either operand panics. -/
def Matrix.matmul [Zero T] [Add T] [Mul T] (a b : Matrix T) : Option (Matrix T) :=
  if a.rows = b.cols then
    match pushLoop a.rows (fun i =>
        pushLoop b.cols (fun j =>
          accLoop a.cols (fun k =>
            (a.get i k).bind fun x => (b.get k j).map fun y => x * y)
            (0 : T))) with
    | some rws => some { rows := a.rows, cols := b.cols, data := rws.flatten }
    | none => none
  else none

/-- `Mul<T> for Matrix<T>` (scalar multiplication): every element is
replaced by `val * rhs` in storage order; shape is kept. -/
def Matrix.smul [Mul T] (m : Matrix T) (s : T) : Matrix T :=
  { rows := m.rows, cols := m.cols, data := m.data.map fun v => v * s }

/-! Helper lemmas about the loop combinators and flattened row-major
storage. -/

theorem randLoop_eq (f : Nat → Int) (n : Nat) :
    randLoop f n = ((List.range n).map f, n) := by
  induction n with
  | zero => rfl
  | succ m ih => simp [randLoop, ih, List.range_succ]

theorem pushLoop_eq_some (f : Nat → Option α) (g : Nat → α) (n : Nat)
    (h : ∀ i, i < n → f i = some (g i)) :
    pushLoop n f = some ((List.range n).map g) := by
  induction n with
  | zero => rfl
  | succ m ih =>
    have hm : f m = some (g m) := h m (Nat.lt_succ_self m)
    have ihm : pushLoop m f = some ((List.range m).map g) :=
      ih fun i hi => h i (Nat.lt_succ_of_lt hi)
    simp [pushLoop, ihm, hm, List.range_succ]

theorem pushLoop_eq_none_iff (f : Nat → Option α) (n : Nat) :
    pushLoop n f = none ↔ ∃ i, i < n ∧ f i = none := by
  induction n with
  | zero => simp [pushLoop]
  | succ m ih =>
    cases hp : pushLoop m f with
    | none =>
      obtain ⟨i, hi, hfi⟩ := ih.mp hp
      simp only [pushLoop, hp]
      exact ⟨fun _ => ⟨i, Nat.lt_succ_of_lt hi, hfi⟩, fun _ => trivial⟩
    | some acc =>
      cases hf : f m with
      | none =>
        simp only [pushLoop, hp, hf]
        exact ⟨fun _ => ⟨m, Nat.lt_succ_self m, hf⟩, fun _ => trivial⟩
      | some x =>
        simp only [pushLoop, hp, hf]
        constructor
        · intro hcon; exact absurd hcon (by simp)
        · rintro ⟨i, hi, hfi⟩
          rcases Nat.lt_succ_iff_lt_or_eq.mp hi with hlt | heq
          · have hnone : pushLoop m f = none := ih.mpr ⟨i, hlt, hfi⟩
            rw [hp] at hnone
            exact absurd hnone (by simp)
          · rw [heq, hf] at hfi
            exact absurd hfi (by simp)

theorem accLoop_eq_sum (T : Type) [AddCommMonoid T] (f : Nat → Option T) (g : Nat → T)
    (n : Nat) (init : T) (h : ∀ k, k < n → f k = some (g k)) :
    accLoop n f init = some (init + ∑ k ∈ Finset.range n, g k) := by
  induction n with
  | zero => simp [accLoop]
  | succ m ih =>
    have hm : f m = some (g m) := h m (Nat.lt_succ_self m)
    have ihm := ih fun k hk => h k (Nat.lt_succ_of_lt hk)
    simp [accLoop, ihm, hm, Finset.sum_range_succ, add_assoc]

theorem flatten_length_uniform (L : List (List α)) (c : Nat)
    (h : ∀ r ∈ L, r.length = c) : L.flatten.length = L.length * c := by
  induction L with
  | nil => simp
  | cons a L ih =>
    have ha : a.length = c := h a (List.mem_cons_self a L)
    have ihL := ih fun r hr => h r (List.mem_cons_of_mem a hr)
    simp only [List.flatten_cons, List.length_append, List.length_cons, ha, ihL]
    ring

theorem flatten_get_uniform (L : List (List α)) (c : Nat)
    (h : ∀ r ∈ L, r.length = c) (j : Nat) (hj : j < c) :
    ∀ i, L.flatten.get? (i * c + j) = (L.get? i).bind fun r => r.get? j := by
  induction L with
  | nil => intro i; simp
  | cons a L ih =>
    intro i
    have ha : a.length = c := h a (List.mem_cons_self a L)
    have ihL := ih fun r hr => h r (List.mem_cons_of_mem a hr)
    cases i with
    | zero =>
      simp only [List.flatten_cons, Nat.zero_mul, Nat.zero_add]
      rw [List.get?_append (by rw [ha]; exact hj)]
      rfl
    | succ i =>
      have hsm : (i + 1) * c = i * c + c := Nat.succ_mul i c
      simp only [List.flatten_cons]
      rw [List.get?_append_right (by rw [ha]; omega)]
      have harith : (i + 1) * c + j - a.length = i * c + j := by rw [ha]; omega
      rw [harith, ihL i]
      rfl

theorem flatten_slice_uniform (L : List (List α)) (c : Nat)
    (h : ∀ r ∈ L, r.length = c) :
    ∀ i r, L.get? i = some r → (L.flatten.take ((i + 1) * c)).drop (i * c) = r := by
  induction L with
  | nil => intro i r hr; simp at hr
  | cons a L ih =>
    intro i r hr
    have ha : a.length = c := h a (List.mem_cons_self a L)
    have ihL := ih fun r' hr' => h r' (List.mem_cons_of_mem a hr')
    cases i with
    | zero =>
      have hra : a = r := by simpa using hr
      have h01 : (0 + 1) * c = c := by omega
      simp only [List.flatten_cons, Nat.zero_mul, List.drop_zero, h01]
      rw [← ha, List.take_left]
      exact hra
    | succ i =>
      have hrL : L.get? i = some r := by simpa using hr
      have hsm : (i + 1) * c = i * c + c := Nat.succ_mul i c
      have hsm2 : (i + 1 + 1) * c = (i + 1) * c + c := Nat.succ_mul (i + 1) c
      simp only [List.flatten_cons]
      rw [List.take_append_eq_append_take, List.take_of_length_le (by rw [ha]; omega),
        List.drop_append_eq_append_drop, List.drop_eq_nil_of_le (by rw [ha]; omega),
        List.nil_append]
      have h1 : (i + 1 + 1) * c - a.length = (i + 1) * c := by rw [ha]; omega
      have h2 : (i + 1) * c - a.length = i * c := by rw [ha]; omega
      rw [h1, h2]
      exact ihL i r hrL

/-- C10: `Matrix::from` applied to an empty outer sequence always fails
(the constructor unconditionally reads `data[0]`), rather than
returning a valid empty matrix. -/
theorem from_empty_fails (T : Type) :
    Matrix.fromRows ([] : List (List T)) = none := rfl

/-- C4 counterexample: constructing from the ragged input `[[1,2],[3]]`
does not fail with a shape error — it silently succeeds, producing a
2×2 matrix whose backing data `[1,2,3]` even violates the length
invariant. -/
theorem from_ragged_cex :
    Matrix.fromRows [[(1 : Int), 2], [3]] = some ⟨2, 2, [1, 2, 3]⟩
    ∧ (⟨2, 2, [1, 2, 3]⟩ : Matrix Int).data.length
        ≠ (⟨2, 2, [1, 2, 3]⟩ : Matrix Int).rows * (⟨2, 2, [1, 2, 3]⟩ : Matrix Int).cols := by
  decide

/-- C4 amended: `Matrix::from` never checks rectangularity: on any
non-empty input, ragged or not, it silently returns a matrix with
`rows` the outer length, `cols` the first inner length, and `data` the
concatenation of all inner sequences. -/
theorem from_never_rejects_ragged (T : Type) (x : List T) (xs : List (List T)) :
    Matrix.fromRows (x :: xs)
      = some ⟨(x :: xs).length, x.length, (x :: xs).flatten⟩ := rfl

/-- C1: the multiplication precondition defect.  The code asserts
`self.rows == rhs.cols` instead of `self.cols == rhs.rows`: a 1×2 times
2×4 product (compatible under the correct rule) panics, while a 2×2
times 3×2 product (incompatible under the correct rule) goes through
without any dimension-mismatch error. -/
theorem matmul_precondition_defect :
    ((⟨1, 2, [1, 2]⟩ : Matrix Int).cols = (⟨2, 4, [1, 2, 3, 4, 5, 6, 7, 8]⟩ : Matrix Int).rows
      ∧ Matrix.matmul (⟨1, 2, [1, 2]⟩ : Matrix Int) ⟨2, 4, [1, 2, 3, 4, 5, 6, 7, 8]⟩ = none)
    ∧ ((⟨2, 2, [1, 2, 3, 4]⟩ : Matrix Int).cols ≠ (⟨3, 2, [1, 2, 3, 4, 5, 6]⟩ : Matrix Int).rows
      ∧ (Matrix.matmul (⟨2, 2, [1, 2, 3, 4]⟩ : Matrix Int) ⟨3, 2, [1, 2, 3, 4, 5, 6]⟩).isSome
          = true) := by
  decide

/-- C2: the random constructor appends an extra trailing `1`, so a 2×2
random matrix has backing data of length 5, not `rows * cols = 4`. -/
theorem new_random_length_defect :
    (Matrix.new_random 2 2 0 10 fun _ _ _ => 0).1.data.length = 5
    ∧ (Matrix.new_random 2 2 0 10 fun _ _ _ => 0).1.rows
        * (Matrix.new_random 2 2 0 10 fun _ _ _ => 0).1.cols = 4 := by
  decide

/-- C6: matrix equality holds iff the flattened data sequences are
equal element-wise in order; in particular a 2×3 and a 3×2 matrix with
identical flattened data compare equal despite their different shapes. -/
theorem meq_iff_data_eq :
    (∀ (T : Type) (inst : DecidableEq T) (a b : Matrix T),
        (Matrix.meq a b = true ↔ a.data = b.data))
    ∧ (Matrix.meq (⟨2, 3, [1, 2, 3, 4, 5, 6]⟩ : Matrix Int) ⟨3, 2, [1, 2, 3, 4, 5, 6]⟩ = true
        ∧ (⟨2, 3, [1, 2, 3, 4, 5, 6]⟩ : Matrix Int).rows
            ≠ (⟨3, 2, [1, 2, 3, 4, 5, 6]⟩ : Matrix Int).rows) := by
  refine ⟨fun T inst a b => ?_, by decide, by decide⟩
  simp [Matrix.meq]

/-- C8: scalar multiplication keeps the shape and multiplies every
element (at any flat position, hence at every logical position) by the
scalar on the right; in particular `[[1,2,3],[4,5,6],[7,8,9]] * 2` is
`[[2,4,6],[8,10,12],[14,16,18]]`. -/
theorem smul_correct :
    (∀ (T : Type) (inst : Mul T) (m : Matrix T) (s : T),
        (m.smul s).rows = m.rows ∧ (m.smul s).cols = m.cols
        ∧ ∀ i j : Nat, (m.smul s).get i j = Option.map (fun v => v * s) (m.get i j))
    ∧ (Matrix.fromRows [[(1 : Int), 2, 3], [4, 5, 6], [7, 8, 9]]).map (fun m => m.smul 2)
        = Matrix.fromRows [[2, 4, 6], [8, 10, 12], [14, 16, 18]] := by
  refine ⟨fun T inst m s => ⟨rfl, rfl, fun i j => ?_⟩, by decide⟩
  simp [Matrix.smul, Matrix.get, List.get?_map]

/-- C9: `new_random` consumes the random source exactly `rows * cols`
times, for every `min`, every `max`, and every source, unconditionally;
and with bounds `[0, max)` for `max > 1` every element of the resulting
data lies in `[0, max)` whenever the source respects its range (the
extra trailing `1` also satisfies the bound since `max > 1`). -/
theorem new_random_calls_and_bounds (rows cols : Nat) :
    (∀ mn mx : Int, ∀ rng : Int → Int → Nat → Int,
        (Matrix.new_random rows cols mn mx rng).2 = rows * cols)
    ∧ ∀ mx : Int, ∀ rng : Int → Int → Nat → Int, 1 < mx →
        (∀ i, i < rows * cols → 0 ≤ rng 0 mx i ∧ rng 0 mx i < mx) →
        ∀ x ∈ (Matrix.new_random rows cols 0 mx rng).1.data, 0 ≤ x ∧ x < mx := by
  constructor
  · intro mn mx rng
    simp [Matrix.new_random, randLoop_eq]
  · intro mx rng hmx hrng x hx
    simp only [Matrix.new_random, randLoop_eq, List.mem_append, List.mem_map,
      List.mem_range, List.mem_singleton] at hx
    rcases hx with ⟨i, hi, rfl⟩ | rfl
    · exact hrng i hi
    · exact ⟨by norm_num, hmx⟩

/-- C9 witness: a 2×3 random matrix makes exactly 6 calls even for the
bounds `[-5, 7)`, and with bounds `[0, 2)` and a source that always
returns 0 every element stays in bounds. -/
theorem new_random_calls_and_bounds_witness :
    (Matrix.new_random 2 3 (-5) 7 fun _ _ _ => 0).2 = 2 * 3
    ∧ ∀ x ∈ (Matrix.new_random 2 3 0 2 fun _ _ _ => 0).1.data, 0 ≤ x ∧ x < 2 :=
  ⟨(new_random_calls_and_bounds 2 3).1 (-5) 7 (fun _ _ _ => 0),
    (new_random_calls_and_bounds 2 3).2 2 (fun _ _ _ => 0) (by decide) (by decide)⟩

/-- C7: constructing from a non-empty rectangular nested sequence and
reading back every row with `get_row` reproduces the input exactly,
with `rows` the outer length and `cols` the length of the first inner
sequence. -/
theorem from_get_row_roundtrip (T : Type) (x : List T) (xs : List (List T))
    (hrect : ∀ r ∈ x :: xs, r.length = x.length) :
    ∃ m, Matrix.fromRows (x :: xs) = some m
      ∧ m.rows = (x :: xs).length ∧ m.cols = x.length
      ∧ ∀ i, i < (x :: xs).length → m.get_row i = (x :: xs).get? i := by
  refine ⟨⟨(x :: xs).length, x.length, (x :: xs).flatten⟩, rfl, rfl, rfl, ?_⟩
  intro i hi
  have hlen : ((x :: xs).flatten).length = (x :: xs).length * x.length :=
    flatten_length_uniform _ _ hrect
  have hcond : (i + 1) * x.length ≤ ((x :: xs).flatten).length := by
    rw [hlen]
    exact Nat.mul_le_mul_right _ (Nat.succ_le_of_lt hi)
  obtain ⟨r, hr⟩ : ∃ r, (x :: xs).get? i = some r := by
    cases hg : (x :: xs).get? i with
    | none =>
      rw [List.get?_eq_none] at hg
      omega
    | some r => exact ⟨r, rfl⟩
  simp only [Matrix.get_row]
  rw [if_pos hcond, flatten_slice_uniform _ _ hrect i r hr, hr]

/-- C7 witness: the concrete rectangular input `[[1,2],[3,4],[5,6]]`
round-trips through `from` and `get_row`. -/
theorem from_get_row_roundtrip_witness :
    ∃ m, Matrix.fromRows [[(1 : Int), 2], [3, 4], [5, 6]] = some m
      ∧ m.rows = ([[(1 : Int), 2], [3, 4], [5, 6]] : List (List Int)).length
      ∧ m.cols = ([(1 : Int), 2] : List Int).length
      ∧ ∀ i, i < ([[(1 : Int), 2], [3, 4], [5, 6]] : List (List Int)).length →
          m.get_row i = ([[(1 : Int), 2], [3, 4], [5, 6]] : List (List Int)).get? i :=
  from_get_row_roundtrip Int [1, 2] [[3, 4], [5, 6]] (by decide)

/-- C5 counterexample: on the 2×3 matrix `[[1,2,3],[4,5,6]]`, `get`
with the out-of-range column 3 does not fail: it returns `some 4`, the
element stored at the different logical position (1,0). -/
theorem get_out_of_range_col_cex :
    (⟨2, 3, [1, 2, 3, 4, 5, 6]⟩ : Matrix Int).cols ≤ 3
    ∧ (⟨2, 3, [1, 2, 3, 4, 5, 6]⟩ : Matrix Int).get 0 3 = some 4
    ∧ (⟨2, 3, [1, 2, 3, 4, 5, 6]⟩ : Matrix Int).get 1 0 = some 4 := by
  decide

/-- C5 amended: on a well-formed matrix (`data.length = rows * cols`,
both positive), `get` and `set` fail exactly when the flat index
`row * cols + col` is out of range of the data — in particular always
when `row ≥ rows`, but an out-of-range column whose flat index stays in
range silently resolves to a different logical position; `get_row`
fails exactly when `row ≥ rows`; `get_column` fails exactly when
`col ≥ cols`; and for in-range indices `get` succeeds with the element
stored at flat index `row * cols + col`. -/
theorem access_bounds_characterization (T : Type) (m : Matrix T) (v : T)
    (hwf : m.data.length = m.rows * m.cols)
    (hr : 0 < m.rows) (hc : 0 < m.cols) :
    (∀ row col : Nat,
        (m.get row col = none ↔ m.rows * m.cols ≤ row * m.cols + col)
        ∧ (m.set row col v = none ↔ m.rows * m.cols ≤ row * m.cols + col)
        ∧ (m.rows ≤ row → m.get row col = none ∧ m.set row col v = none))
    ∧ (∀ row : Nat, (m.get_row row = none ↔ m.rows ≤ row))
    ∧ (∀ col : Nat, (m.get_column col = none ↔ m.cols ≤ col))
    ∧ (∀ row, row < m.rows → ∀ col, col < m.cols →
        m.get row col = m.data.get? (row * m.cols + col) ∧ m.get row col ≠ none) := by
  have hget : ∀ row col : Nat,
      (m.get row col = none ↔ m.rows * m.cols ≤ row * m.cols + col) := by
    intro row col
    rw [Matrix.get, List.get?_eq_none, hwf]
  have hset : ∀ row col : Nat,
      (m.set row col v = none ↔ m.rows * m.cols ≤ row * m.cols + col) := by
    intro row col
    simp only [Matrix.set]
    split
    · simp only [reduceCtorEq, false_iff]
      omega
    · simp only [true_iff]
      omega
  refine ⟨fun row col => ⟨hget row col, hset row col, fun hrow => ?_⟩, ?_, ?_, ?_⟩
  · have h1 : m.rows * m.cols ≤ row * m.cols := Nat.mul_le_mul_right _ hrow
    exact ⟨(hget row col).mpr (by omega), (hset row col).mpr (by omega)⟩
  · intro row
    by_cases hcnd : (row + 1) * m.cols ≤ m.data.length
    · simp only [Matrix.get_row, if_pos hcnd, reduceCtorEq, false_iff]
      rw [hwf] at hcnd
      have : row + 1 ≤ m.rows := Nat.le_of_mul_le_mul_right hcnd hc
      omega
    · simp only [Matrix.get_row, if_neg hcnd, true_iff]
      rw [hwf] at hcnd
      by_contra hlt
      exact hcnd (Nat.mul_le_mul_right _ (by omega))
  · intro col
    simp only [Matrix.get_column]
    rw [pushLoop_eq_none_iff]
    constructor
    · rintro ⟨i, hi, hnone⟩
      rw [hget i col] at hnone
      by_contra hcol
      have h1 : (i + 1) * m.cols ≤ m.rows * m.cols := Nat.mul_le_mul_right _ (by omega)
      have h2 : i * m.cols + m.cols = (i + 1) * m.cols := (Nat.succ_mul i m.cols).symm
      omega
    · intro hcol
      refine ⟨m.rows - 1, by omega, (hget _ col).mpr ?_⟩
      have h2 : (m.rows - 1) * m.cols + m.cols = (m.rows - 1 + 1) * m.cols :=
        (Nat.succ_mul (m.rows - 1) m.cols).symm
      have h3 : (m.rows - 1 + 1) * m.cols = m.rows * m.cols := by
        congr 1
        omega
      omega
  · intro row hrow col hcol
    refine ⟨rfl, ?_⟩
    rw [Ne, hget row col]
    have h1 : (row + 1) * m.cols ≤ m.rows * m.cols := Nat.mul_le_mul_right _ (by omega)
    have h2 : row * m.cols + m.cols = (row + 1) * m.cols := (Nat.succ_mul row m.cols).symm
    omega

/-- C5 witness: the amended characterization instantiated on the 2×3
matrix `[[1,2,3],[4,5,6]]`. -/
theorem access_bounds_witness :
    (∀ row col : Nat,
        ((⟨2, 3, [1, 2, 3, 4, 5, 6]⟩ : Matrix Int).get row col = none
          ↔ (⟨2, 3, [1, 2, 3, 4, 5, 6]⟩ : Matrix Int).rows
              * (⟨2, 3, [1, 2, 3, 4, 5, 6]⟩ : Matrix Int).cols
              ≤ row * (⟨2, 3, [1, 2, 3, 4, 5, 6]⟩ : Matrix Int).cols + col)
        ∧ ((⟨2, 3, [1, 2, 3, 4, 5, 6]⟩ : Matrix Int).set row col 0 = none
          ↔ (⟨2, 3, [1, 2, 3, 4, 5, 6]⟩ : Matrix Int).rows
              * (⟨2, 3, [1, 2, 3, 4, 5, 6]⟩ : Matrix Int).cols
              ≤ row * (⟨2, 3, [1, 2, 3, 4, 5, 6]⟩ : Matrix Int).cols + col)
        ∧ ((⟨2, 3, [1, 2, 3, 4, 5, 6]⟩ : Matrix Int).rows ≤ row →
            (⟨2, 3, [1, 2, 3, 4, 5, 6]⟩ : Matrix Int).get row col = none
            ∧ (⟨2, 3, [1, 2, 3, 4, 5, 6]⟩ : Matrix Int).set row col 0 = none))
    ∧ (∀ row : Nat, ((⟨2, 3, [1, 2, 3, 4, 5, 6]⟩ : Matrix Int).get_row row = none
        ↔ (⟨2, 3, [1, 2, 3, 4, 5, 6]⟩ : Matrix Int).rows ≤ row))
    ∧ (∀ col : Nat, ((⟨2, 3, [1, 2, 3, 4, 5, 6]⟩ : Matrix Int).get_column col = none
        ↔ (⟨2, 3, [1, 2, 3, 4, 5, 6]⟩ : Matrix Int).cols ≤ col))
    ∧ (∀ row, row < (⟨2, 3, [1, 2, 3, 4, 5, 6]⟩ : Matrix Int).rows →
        ∀ col, col < (⟨2, 3, [1, 2, 3, 4, 5, 6]⟩ : Matrix Int).cols →
          (⟨2, 3, [1, 2, 3, 4, 5, 6]⟩ : Matrix Int).get row col
              = (⟨2, 3, [1, 2, 3, 4, 5, 6]⟩ : Matrix Int).data.get?
                  (row * (⟨2, 3, [1, 2, 3, 4, 5, 6]⟩ : Matrix Int).cols + col)
          ∧ (⟨2, 3, [1, 2, 3, 4, 5, 6]⟩ : Matrix Int).get row col ≠ none) :=
  access_bounds_characterization Int ⟨2, 3, [1, 2, 3, 4, 5, 6]⟩ 0 (by decide) (by decide)
    (by decide)

/-- C3 counterexample: the 1×2 matrix `[[1,2]]` and the 2×2 matrix
`[[1,2],[3,4]]` satisfy the mathematical precondition (cols of the left
equal rows of the right), yet the product panics on the defective
assert (`1 ≠ 2`) instead of producing the 1×2 result the claim
promises. -/
theorem matmul_compatible_shapes_cex :
    (⟨1, 2, [1, 2]⟩ : Matrix Int).cols = (⟨2, 2, [1, 2, 3, 4]⟩ : Matrix Int).rows
    ∧ Matrix.matmul (⟨1, 2, [1, 2]⟩ : Matrix Int) ⟨2, 2, [1, 2, 3, 4]⟩ = none := by
  decide

/-- C3 amended: for matrices A (m×n) and B (n×p) that additionally
satisfy the precondition the code actually enforces (`m = p`, from
`assert_eq!(self.rows, rhs.cols)`), the product succeeds with shape
m×p and entry (i, j) equal to the sum over `k < n` of
`A[i,k] * B[k,j]` accumulated from the additive identity; in
particular the 3×3 product of `[[1,2,3],[4,5,6],[7,8,9]]` and
`[[9,8,7],[6,5,4],[3,2,1]]` is `[[30,24,18],[84,69,54],[138,114,90]]`. -/
theorem matmul_correct_under_code_precondition (T : Type) [AddCommMonoid T] [Mul T]
    (a b : Matrix T) (m n p : Nat) (A B : Nat → Nat → T)
    (ham : a.rows = m) (han : a.cols = n) (hbn : b.rows = n) (hbp : b.cols = p)
    (hA : ∀ i, i < m → ∀ k, k < n → a.get i k = some (A i k))
    (hB : ∀ k, k < n → ∀ j, j < p → b.get k j = some (B k j))
    (hmp : m = p) :
    (∃ c, Matrix.matmul a b = some c ∧ c.rows = m ∧ c.cols = p
      ∧ ∀ i, i < m → ∀ j, j < p →
          c.get i j = some (∑ k ∈ Finset.range n, A i k * B k j))
    ∧ (Matrix.fromRows [[(1 : Int), 2, 3], [4, 5, 6], [7, 8, 9]]).bind
        (fun a0 => (Matrix.fromRows [[(9 : Int), 8, 7], [6, 5, 4], [3, 2, 1]]).bind
          fun b0 => Matrix.matmul a0 b0)
      = Matrix.fromRows [[30, 24, 18], [84, 69, 54], [138, 114, 90]] := by
  refine ⟨?_, by decide⟩
  subst han hbp ham
  have hinner : ∀ i, i < a.rows → ∀ j, j < b.cols →
      accLoop a.cols
          (fun k => (a.get i k).bind fun x => (b.get k j).map fun y => x * y) (0 : T)
        = some (∑ k ∈ Finset.range a.cols, A i k * B k j) := by
    intro i hi j hj
    have hstep : ∀ k, k < a.cols →
        ((a.get i k).bind fun x => (b.get k j).map fun y => x * y)
          = some (A i k * B k j) := by
      intro k hk
      rw [hA i hi k hk, hB k hk j hj]
      rfl
    have := accLoop_eq_sum T _ (fun k => A i k * B k j) a.cols (0 : T) hstep
    simpa using this
  have houter :
      pushLoop a.rows (fun i =>
          pushLoop b.cols (fun j =>
            accLoop a.cols
              (fun k => (a.get i k).bind fun x => (b.get k j).map fun y => x * y)
              (0 : T)))
        = some ((List.range a.rows).map fun i =>
            (List.range b.cols).map fun j => ∑ k ∈ Finset.range a.cols, A i k * B k j) :=
    pushLoop_eq_some _ _ _ fun i hi =>
      pushLoop_eq_some _ _ _ fun j hj => hinner i hi j hj
  simp only [Matrix.matmul, if_pos hmp, houter]
  refine ⟨_, rfl, rfl, rfl, ?_⟩
  intro i hi j hj
  have huniform : ∀ r ∈ (List.range a.rows).map fun i =>
      (List.range b.cols).map fun j => ∑ k ∈ Finset.range a.cols, A i k * B k j,
      r.length = b.cols := by
    intro r hr
    obtain ⟨i', _, rfl⟩ := List.mem_map.mp hr
    simp
  simp only [Matrix.get]
  rw [flatten_get_uniform _ b.cols huniform j hj i, List.get?_map, List.get?_range hi]
  simp only [Option.map_some', Option.some_bind]
  rw [List.get?_map, List.get?_range hj]
  simp

/-- C3 witness: the amended multiplication statement instantiated on
the concrete 3×3 matrices from the spec. -/
theorem matmul_correct_witness :
    (∃ c, Matrix.matmul (⟨3, 3, [1, 2, 3, 4, 5, 6, 7, 8, 9]⟩ : Matrix Int)
            ⟨3, 3, [9, 8, 7, 6, 5, 4, 3, 2, 1]⟩ = some c
      ∧ c.rows = 3 ∧ c.cols = 3
      ∧ ∀ i, i < 3 → ∀ j, j < 3 →
          c.get i j = some (∑ k ∈ Finset.range 3,
            ((([[(1 : Int), 2, 3], [4, 5, 6], [7, 8, 9]] : List (List Int)).getD i []).getD k 0)
              * ((([[(9 : Int), 8, 7], [6, 5, 4], [3, 2, 1]] : List (List Int)).getD k []).getD
                  j 0)))
    ∧ (Matrix.fromRows [[(1 : Int), 2, 3], [4, 5, 6], [7, 8, 9]]).bind
        (fun a0 => (Matrix.fromRows [[(9 : Int), 8, 7], [6, 5, 4], [3, 2, 1]]).bind
          fun b0 => Matrix.matmul a0 b0)
      = Matrix.fromRows [[30, 24, 18], [84, 69, 54], [138, 114, 90]] :=
  matmul_correct_under_code_precondition Int
    ⟨3, 3, [1, 2, 3, 4, 5, 6, 7, 8, 9]⟩ ⟨3, 3, [9, 8, 7, 6, 5, 4, 3, 2, 1]⟩ 3 3 3
    (fun i k => (([[(1 : Int), 2, 3], [4, 5, 6], [7, 8, 9]] : List (List Int)).getD i []).getD k 0)
    (fun k j => (([[(9 : Int), 8, 7], [6, 5, 4], [3, 2, 1]] : List (List Int)).getD k []).getD j 0)
    rfl rfl rfl rfl (by decide) (by decide) rfl

end Rustices
